import Mathlib

/-!
Verification of the analytics/query core of the chronicgpt-aws dashboard.

The embedding covers, faithfully translated from the TypeScript source:
* the readiness scorer and row normalizer helpers of the metrics API route
  (computeReadinessScore, parseBoolean);
* the Athena polling loop (waitForQueryCompletion), as a deterministic
  function of the sequence of poll responses, with one loop iteration per
  1000 ms poll interval inside the 60000 ms wall-clock budget;
* the dashboard's client-side range cache (handleDateRangeChange): the
  preset-days fast path, the contained-range filter path, and the
  merge/deduplicate/sort algorithm applied after a remote fetch;
* the best/worst-day selection (findBestWorstDays).

JavaScript numbers are modelled as rationals; JS Math.round is
round-half-up; JS Array.prototype.sort (stable since ES2019) is modelled
by List.mergeSort, which is stable; JS string comparison on ISO dates
(localeCompare and the relational operators) is modelled by the
lexicographic order on String.
-/

namespace ChronicGPT

/-- JS Math.round: round half toward positive infinity. -/
def jsRound (q : ℚ) : ℤ := ⌊q + 1/2⌋

/-! ### Readiness scorer (metrics route, computeReadinessScore)

The argument record of computeReadinessScore: the six nullable raw metric
fields of a health metric row. -/

structure MetricInput where
  hrv : Option ℚ
  resting_hr : Option ℚ
  sleep_score : Option ℚ
  recovery_index : Option ℚ
  movement_index : Option ℚ
  steps : Option ℚ
deriving DecidableEq, Repr

structure WeightedScore where
  score : ℚ
  weight : ℚ
deriving DecidableEq, Repr

/-- HRV component: Math.min(100, Math.max(0, ((hrv - 20) / 80) * 100)), weight 0.25. -/
def hrvComponent (m : MetricInput) : List WeightedScore :=
  match m.hrv with
  | some hrv => [⟨min 100 (max 0 ((hrv - 20) / 80 * 100)), 0.25⟩]
  | none => []

/-- Sleep component: the value as-is, weight 0.25. -/
def sleepComponent (m : MetricInput) : List WeightedScore :=
  match m.sleep_score with
  | some s => [⟨s, 0.25⟩]
  | none => []

/-- Recovery component: the value as-is, weight 0.20. -/
def recoveryComponent (m : MetricInput) : List WeightedScore :=
  match m.recovery_index with
  | some r => [⟨r, 0.20⟩]
  | none => []

/-- Resting-HR component: Math.min(100, Math.max(0, ((90 - rhr) / 50) * 100)), weight 0.15. -/
def rhrComponent (m : MetricInput) : List WeightedScore :=
  match m.resting_hr with
  | some rhr => [⟨min 100 (max 0 ((90 - rhr) / 50 * 100)), 0.15⟩]
  | none => []

/-- Movement/steps component: the movement index as-is if non-null, otherwise
Math.min(100, (steps / 15000) * 100) if steps is non-null, weight 0.10.
Note the source applies no Math.max(0, _) lower clamp on the steps branch. -/
def movementComponent (m : MetricInput) : List WeightedScore :=
  match m.movement_index, m.steps with
  | some mi, _ => [⟨mi, 0.10⟩]
  | none, some steps => [⟨min 100 (steps / 15000 * 100), 0.10⟩]
  | none, none => []

/-- The weightedScores array, pushed in source order:
hrv, sleep, recovery, resting HR, movement/steps. -/
def weightedScores (m : MetricInput) : List WeightedScore :=
  hrvComponent m ++ sleepComponent m ++ recoveryComponent m ++
    rhrComponent m ++ movementComponent m

/-- computeReadinessScore: null when fewer than 2 components are present;
otherwise the weighted sum divided by the total present weight, clamped to
[0, 100] and rounded (Math.round(Math.min(100, Math.max(0, score)))). -/
def computeReadinessScore (m : MetricInput) : Option ℤ :=
  let ws := weightedScores m
  if ws.length < 2 then none
  else
    let totalWeight : ℚ := ws.foldl (fun sum item => sum + item.weight) 0
    let weightedSum : ℚ := ws.foldl (fun sum item => sum + item.score * item.weight) 0
    let score : ℚ := if totalWeight > 0 then weightedSum / totalWeight else 0
    some (jsRound (min 100 (max 0 score)))

/-- Number of present weighted components as the spec counts them: one per
non-null raw field among hrv, sleep, recovery and resting HR, and one for
the movement/steps pair (movement index preferred over steps). -/
def presentComponentCount (m : MetricInput) : ℕ :=
  (if m.hrv.isSome then 1 else 0) + (if m.sleep_score.isSome then 1 else 0) +
  (if m.recovery_index.isSome then 1 else 0) + (if m.resting_hr.isSome then 1 else 0) +
  (if m.movement_index.isSome || m.steps.isSome then 1 else 0)

/-- Sum of the weights of the present components. -/
def totalWeightOf (m : MetricInput) : ℚ := ((weightedScores m).map (·.weight)).sum

/-- Weighted sum of the scores of the present components. -/
def weightedSumOf (m : MetricInput) : ℚ :=
  ((weightedScores m).map (fun ws => ws.score * ws.weight)).sum

lemma length_hrvComponent (m : MetricInput) :
    (hrvComponent m).length = if m.hrv.isSome then 1 else 0 := by
  cases h : m.hrv <;> simp [hrvComponent, h]

lemma length_sleepComponent (m : MetricInput) :
    (sleepComponent m).length = if m.sleep_score.isSome then 1 else 0 := by
  cases h : m.sleep_score <;> simp [sleepComponent, h]

lemma length_recoveryComponent (m : MetricInput) :
    (recoveryComponent m).length = if m.recovery_index.isSome then 1 else 0 := by
  cases h : m.recovery_index <;> simp [recoveryComponent, h]

lemma length_rhrComponent (m : MetricInput) :
    (rhrComponent m).length = if m.resting_hr.isSome then 1 else 0 := by
  cases h : m.resting_hr <;> simp [rhrComponent, h]

lemma length_movementComponent (m : MetricInput) :
    (movementComponent m).length =
      if m.movement_index.isSome || m.steps.isSome then 1 else 0 := by
  cases hm : m.movement_index <;> cases hs : m.steps <;>
    simp [movementComponent, hm, hs]

lemma length_weightedScores (m : MetricInput) :
    (weightedScores m).length = presentComponentCount m := by
  simp only [weightedScores, List.length_append, length_hrvComponent,
    length_sleepComponent, length_recoveryComponent, length_rhrComponent,
    length_movementComponent, presentComponentCount]

lemma weight_pos_of_mem (m : MetricInput) (ws : WeightedScore)
    (hmem : ws ∈ weightedScores m) : 0 < ws.weight := by
  simp only [weightedScores, List.mem_append] at hmem
  have hweight : ws.weight = 0.25 ∨ ws.weight = 0.25 ∨ ws.weight = 0.20 ∨
      ws.weight = 0.15 ∨ ws.weight = 0.10 := by
    rcases hmem with ((((h | h) | h) | h) | h)
    · left
      cases hv : m.hrv <;> rw [hrvComponent, hv] at h <;> simp at h
      rw [h]
    · right; left
      cases hv : m.sleep_score <;> rw [sleepComponent, hv] at h <;> simp at h
      rw [h]
    · right; right; left
      cases hv : m.recovery_index <;> rw [recoveryComponent, hv] at h <;> simp at h
      rw [h]
    · right; right; right; left
      cases hv : m.resting_hr <;> rw [rhrComponent, hv] at h <;> simp at h
      rw [h]
    · right; right; right; right
      cases hv : m.movement_index <;> cases hs : m.steps <;>
        rw [movementComponent, hv, hs] at h <;> simp at h <;> rw [h]
  rcases hweight with h | h | h | h | h <;> rw [h] <;> norm_num

lemma foldl_add_eq_sum (f : WeightedScore → ℚ) (l : List WeightedScore) (a : ℚ) :
    l.foldl (fun sum item => sum + f item) a = a + (l.map f).sum := by
  induction l generalizing a with
  | nil => simp
  | cons x xs ih => simp [ih, add_assoc]

lemma totalWeight_pos (m : MetricInput) (hlen : 2 ≤ (weightedScores m).length) :
    0 < totalWeightOf m := by
  rcases hws : weightedScores m with _ | ⟨w, rest⟩
  · rw [hws] at hlen; simp at hlen
  · have hw : 0 < w.weight := weight_pos_of_mem m w (by rw [hws]; exact List.mem_cons_self w rest)
    have hrest : 0 ≤ (rest.map (·.weight)).sum := by
      apply List.sum_nonneg
      intro x hx
      rcases List.mem_map.mp hx with ⟨ws, hmem, hx'⟩
      have : 0 < ws.weight := by
        apply weight_pos_of_mem m ws
        rw [hws]; exact List.mem_cons_of_mem w hmem
      rw [← hx']; exact le_of_lt this
    unfold totalWeightOf
    rw [hws]
    simp only [List.map_cons, List.sum_cons]
    positivity

lemma computeReadinessScore_of_two_components (m : MetricInput)
    (h : 2 ≤ presentComponentCount m) :
    computeReadinessScore m =
      some (jsRound (min 100 (max 0 (weightedSumOf m / totalWeightOf m)))) := by
  have hlen : 2 ≤ (weightedScores m).length := by rw [length_weightedScores]; exact h
  have hpos : 0 < totalWeightOf m := totalWeight_pos m hlen
  unfold computeReadinessScore
  rw [if_neg (by omega)]
  have h1 : (weightedScores m).foldl (fun sum item => sum + item.weight) 0 =
      totalWeightOf m := by
    rw [foldl_add_eq_sum (·.weight)]; simp [totalWeightOf]
  have h2 : (weightedScores m).foldl (fun sum item => sum + item.score * item.weight) 0 =
      weightedSumOf m := by
    rw [foldl_add_eq_sum (fun ws => ws.score * ws.weight)]; simp [weightedSumOf]
  simp only [h1, h2, if_pos hpos]

/-- Claim C1: for every metric row with at least 2 present weighted components,
computeReadinessScore is the weighted average over the present components only
(sum of score times weight divided by the sum of the present weights, not by
the full fixed weight total), rounded to the nearest integer and clamped to
[0, 100]; in particular hrv = 60 and sleepScore = 80 with all other fields
null yields 65. -/
theorem readinessScore_weightedAverage :
    (∀ m : MetricInput, 2 ≤ presentComponentCount m →
      computeReadinessScore m =
        some (jsRound (min 100 (max 0 (weightedSumOf m / totalWeightOf m))))) ∧
    computeReadinessScore ⟨some 60, none, some 80, none, none, none⟩ = some 65 := by
  constructor
  · exact computeReadinessScore_of_two_components
  · have := computeReadinessScore_of_two_components
      ⟨some 60, none, some 80, none, none, none⟩ (by decide)
    rw [this]
    have hs : weightedSumOf ⟨some 60, none, some 80, none, none, none⟩ = 65/2 := by
      simp [weightedSumOf, weightedScores, hrvComponent, sleepComponent,
        recoveryComponent, rhrComponent, movementComponent]
      norm_num
    have ht : totalWeightOf ⟨some 60, none, some 80, none, none, none⟩ = 1/2 := by
      simp [totalWeightOf, weightedScores, hrvComponent, sleepComponent,
        recoveryComponent, rhrComponent, movementComponent]
      norm_num
    rw [hs, ht, jsRound]
    norm_num

/-- Witness for C1 at the concrete spec example. -/
theorem readinessScore_weightedAverage_witness :
    2 ≤ presentComponentCount ⟨some 60, none, some 80, none, none, none⟩ ∧
    computeReadinessScore ⟨some 60, none, some 80, none, none, none⟩ =
      some (jsRound (min 100 (max 0
        (weightedSumOf ⟨some 60, none, some 80, none, none, none⟩ /
          totalWeightOf ⟨some 60, none, some 80, none, none, none⟩)))) :=
  ⟨by decide, readinessScore_weightedAverage.1 ⟨some 60, none, some 80, none, none, none⟩
    (by decide)⟩

/-- Claim C2: computeReadinessScore is null exactly when fewer than 2 weighted
components are present (a component is present exactly when its source raw
field is non-null, movement index preferred over steps); with at least 2
components present it is an integer between 0 and 100, never a default 0 and
never a single-component average. -/
theorem readinessScore_none_iff_and_bounds (m : MetricInput) :
    (computeReadinessScore m = none ↔ presentComponentCount m < 2) ∧
    (2 ≤ presentComponentCount m →
      ∃ k : ℤ, computeReadinessScore m = some k ∧ 0 ≤ k ∧ k ≤ 100) := by
  constructor
  · rcases Nat.lt_or_ge (presentComponentCount m) 2 with hlt | hge
    · simp [computeReadinessScore, length_weightedScores, hlt]
    · rw [computeReadinessScore_of_two_components m hge]
      simp
      omega
  · intro h
    rw [computeReadinessScore_of_two_components m h]
    refine ⟨_, rfl, ?_, ?_⟩
    · rw [jsRound]
      have h0 : (0:ℚ) ≤ min 100 (max 0 (weightedSumOf m / totalWeightOf m)) + 1/2 := by
        have : (0:ℚ) ≤ min 100 (max 0 (weightedSumOf m / totalWeightOf m)) := by
          simp [le_min_iff]
        linarith
      exact_mod_cast Int.le_floor.mpr (by exact_mod_cast h0)
    · rw [jsRound]
      have h100 : min 100 (max 0 (weightedSumOf m / totalWeightOf m)) + 1/2 ≤
          (201:ℚ)/2 := by
        have : min 100 (max 0 (weightedSumOf m / totalWeightOf m)) ≤ 100 :=
          min_le_left _ _
        linarith
      calc ⌊min 100 (max 0 (weightedSumOf m / totalWeightOf m)) + 1/2⌋ ≤ ⌊(201:ℚ)/2⌋ :=
            Int.floor_le_floor h100
        _ = 100 := by norm_num

/-- Witness for C2 at a concrete two-component row. -/
theorem readinessScore_none_iff_and_bounds_witness :
    2 ≤ presentComponentCount ⟨some 60, none, some 80, none, none, none⟩ ∧
    ∃ k : ℤ, computeReadinessScore ⟨some 60, none, some 80, none, none, none⟩ = some k ∧
      0 ≤ k ∧ k ≤ 100 :=
  ⟨by decide, (readinessScore_none_iff_and_bounds
    ⟨some 60, none, some 80, none, none, none⟩).2 (by decide)⟩

/-! ### Row normalizer helpers (metrics route, parseBoolean)

A raw cell value as produced by getCellValue: a string, a number, a boolean,
or null (absent cells and unrecognised cell types). -/

inductive RawValue where
  | str (s : String)
  | num (q : ℚ)
  | boolean (b : Bool)
  | null
deriving DecidableEq, Repr

/-- parseBoolean: booleans pass through; strings compare case-insensitively
against "true" or exactly against "1"; numbers are true when nonzero
(value !== 0); anything else is false. -/
def parseBoolean : RawValue → Bool
  | .boolean b => b
  | .str s => s.toLower == "true" || s == "1"
  | .num q => decide (q ≠ 0)
  | .null => false

/-- Counterexample to claim C8: the claim maps only boolean true, the number
1, and the strings "true" (case-insensitive) and "1" to true, with every
other value mapping to false; but the code maps the number 2 — which is none
of those — to true. -/
theorem parseBoolean_counterexample :
    parseBoolean (RawValue.num 2) = true ∧ (2 : ℚ) ≠ 1 := by
  constructor
  · simp [parseBoolean]
  · norm_num

/-- Claim C8, amended: parseBoolean maps boolean true, every nonzero number,
and any string equal to "true" case-insensitively or to "1" exactly to true;
every other value — booleans false, zero, other strings, and absent cells —
maps to false, never to null (the return type is Bool). -/
theorem parseBoolean_characterization :
    (∀ v : RawValue, parseBoolean v = true ↔
      (v = .boolean true ∨ (∃ q, v = .num q ∧ q ≠ 0) ∨
        (∃ s, v = .str s ∧ (s.toLower = "true" ∨ s = "1")))) ∧
    parseBoolean .null = false := by
  refine ⟨fun v => ?_, rfl⟩
  cases v with
  | str s => simp [parseBoolean]
  | num q => simp [parseBoolean]
  | boolean b => cases b <;> simp [parseBoolean]
  | null => simp [parseBoolean]

/-- Witness for C8 (amended) at a concrete nonzero number. -/
theorem parseBoolean_characterization_witness :
    parseBoolean (RawValue.num 5) = true :=
  (parseBoolean_characterization.1 (RawValue.num 5)).mpr
    (Or.inr (Or.inl ⟨5, rfl, by norm_num⟩))

/-! ### The steps fallback component (claim C9) -/

/-- The clamp function as the spec words it: min(1, max(0, x)). -/
def clamp01 (x : ℚ) : ℚ := min 1 (max 0 x)

/-- Counterexample to claim C9: the claim says the steps fallback component is
clamp01(steps/15000) times 100, hence always within [0, 100] and never
negative; but the code computes Math.min(100, steps/15000*100) with no lower
clamp, so steps = -15000 yields component -100, and the readiness score of a
row with sleepScore = 50 and steps = -15000 is 7 rather than the 36 the
clamped formula would give. -/
theorem stepsComponent_counterexample :
    movementComponent ⟨none, none, some 50, none, none, some (-15000)⟩ =
      [⟨-100, 0.10⟩] ∧
    clamp01 ((-15000 : ℚ) / 15000) * 100 = 0 ∧
    ((-100 : ℚ) < 0) ∧
    computeReadinessScore ⟨none, none, some 50, none, none, some (-15000)⟩ =
      some 7 := by
  refine ⟨?_, ?_, by norm_num, ?_⟩
  · simp only [movementComponent]
    norm_num
  · simp only [clamp01]
    norm_num
  · simp only [computeReadinessScore, weightedScores, hrvComponent,
      sleepComponent, recoveryComponent, rhrComponent, movementComponent,
      jsRound, List.nil_append, List.append_nil, List.singleton_append,
      List.length_cons, List.length_nil, List.foldl]
    norm_num [min_def, max_def]

/-- Claim C9, amended: when movementIndex is null and steps is non-null, the
steps fallback component equals min(100, steps/15000 times 100) — clamped
above at 100 only, with no lower clamp, so it can be negative for negative
steps; when movementIndex is non-null, the movement index is used and the
steps value is ignored (the two are mutually exclusive). -/
theorem movementComponent_spec :
    (∀ (m : MetricInput) (s : ℚ), m.movement_index = none → m.steps = some s →
      movementComponent m = [⟨min 100 (s / 15000 * 100), 0.10⟩] ∧
        min 100 (s / 15000 * 100) ≤ 100) ∧
    (∀ (m : MetricInput) (v : ℚ), m.movement_index = some v →
      movementComponent m = [⟨v, 0.10⟩]) := by
  constructor
  · intro m s hm hs
    refine ⟨?_, min_le_left _ _⟩
    rw [movementComponent, hm, hs]
  · intro m v hm
    cases hs : m.steps <;> rw [movementComponent, hm, hs]

/-- Witness for C9 (amended) at concrete rows. -/
theorem movementComponent_spec_witness :
    movementComponent ⟨none, none, none, none, none, some 3000⟩ =
      [⟨min 100 ((3000 : ℚ) / 15000 * 100), 0.10⟩] ∧
    movementComponent ⟨none, none, none, none, some 42, some 3000⟩ =
      [⟨42, 0.10⟩] :=
  ⟨(movementComponent_spec.1 ⟨none, none, none, none, none, some 3000⟩ 3000
      rfl rfl).1,
    movementComponent_spec.2 ⟨none, none, none, none, some 42, some 3000⟩ 42 rfl⟩

/-! ### Async query executor (metrics route, waitForQueryCompletion)

The polling loop is modelled as a deterministic function of the sequence of
poll responses. Each loop iteration performs one GetQueryExecution call and
then sleeps for the 1000 ms poll interval, so the wall-clock guard
(now - start < maxWaitTime) admits ceil(maxWaitTime / 1000) iterations:
60 polls for the default 60000 ms budget. -/

inductive QueryExecutionState where
  | QUEUED
  | RUNNING
  | SUCCEEDED
  | FAILED
  | CANCELLED
deriving DecidableEq, Repr

/-- One GetQueryExecution response: the state and the optional
StateChangeReason. -/
structure PollResponse where
  state : QueryExecutionState
  stateChangeReason : Option String
deriving DecidableEq, Repr

/-- The two error shapes thrown by waitForQueryCompletion. -/
inductive AthenaError where
  | queryTerminated (state : QueryExecutionState) (reason : String)
  | queryTimedOut (maxWaitTime : ℕ)
deriving DecidableEq, Repr

def stateName : QueryExecutionState → String
  | .QUEUED => "QUEUED"
  | .RUNNING => "RUNNING"
  | .SUCCEEDED => "SUCCEEDED"
  | .FAILED => "FAILED"
  | .CANCELLED => "CANCELLED"

/-- The message strings of the two throw sites. -/
def errorMessage : AthenaError → String
  | .queryTerminated s r => "Query " ++ stateName s ++ ": " ++ r
  | .queryTimedOut t => "Query execution timed out after " ++ toString t ++ "ms"

/-- JS response.QueryExecution?.Status?.StateChangeReason || "Unknown error":
both a missing and an empty reason fall back to "Unknown error". -/
def jsOrUnknown (r : Option String) : String :=
  match r with
  | some s => if s == "" then "Unknown error" else s
  | none => "Unknown error"

def pollIntervalMs : ℕ := 1000

/-- The polling loop of waitForQueryCompletion, with the iteration count
(poll budget) made explicit as fuel; running out of fuel is the wall-clock
guard failing, which throws the timeout error. -/
def waitLoop (poll : ℕ → PollResponse) (maxWaitTime : ℕ) :
    ℕ → ℕ → Except AthenaError Unit
  | _, 0 => .error (.queryTimedOut maxWaitTime)
  | i, fuel + 1 =>
    let r := poll i
    if r.state = .SUCCEEDED then .ok ()
    else if r.state = .FAILED ∨ r.state = .CANCELLED then
      .error (.queryTerminated r.state (jsOrUnknown r.stateChangeReason))
    else waitLoop poll maxWaitTime (i + 1) fuel

/-- waitForQueryCompletion with its default 60000 ms budget: polls every
1000 ms until a terminal state or until the wall-clock budget elapses. -/
def waitForQueryCompletion (poll : ℕ → PollResponse) (maxWaitTime : ℕ) :
    Except AthenaError Unit :=
  waitLoop poll maxWaitTime 0 ((maxWaitTime + pollIntervalMs - 1) / pollIntervalMs)

lemma waitLoop_timeout (poll : ℕ → PollResponse) (maxWaitTime : ℕ) :
    ∀ (fuel i : ℕ),
      (∀ j, j < fuel → (poll (i + j)).state ≠ .SUCCEEDED ∧
        (poll (i + j)).state ≠ .FAILED ∧ (poll (i + j)).state ≠ .CANCELLED) →
      waitLoop poll maxWaitTime i fuel = .error (.queryTimedOut maxWaitTime) := by
  intro fuel
  induction fuel with
  | zero => intro i _; rfl
  | succ f ih =>
    intro i h
    have h0 := h 0 (Nat.succ_pos f)
    rw [Nat.add_zero] at h0
    have hnot : ¬((poll i).state = .FAILED ∨ (poll i).state = .CANCELLED) := by
      rintro (hc | hc)
      · exact h0.2.1 hc
      · exact h0.2.2 hc
    rw [waitLoop]
    simp only [if_neg h0.1, if_neg hnot]
    apply ih
    intro j hj
    have h2 : i + 1 + j = i + (j + 1) := by omega
    rw [h2]
    exact h (j + 1) (by omega)

lemma waitLoop_terminated (poll : ℕ → PollResponse) (maxWaitTime : ℕ)
    (i fuel : ℕ) (h : (poll i).state = .FAILED ∨ (poll i).state = .CANCELLED) :
    waitLoop poll maxWaitTime i (fuel + 1) =
      .error (.queryTerminated ((poll i).state)
        (jsOrUnknown ((poll i).stateChangeReason))) := by
  rw [waitLoop]
  have hns : (poll i).state ≠ .SUCCEEDED := by
    rcases h with h | h <;> rw [h] <;> simp
  simp only [if_neg hns, if_pos h]

lemma waitLoop_congr (poll₁ poll₂ : ℕ → PollResponse) (maxWaitTime : ℕ) :
    ∀ (fuel i : ℕ), (∀ j, j < fuel → poll₁ (i + j) = poll₂ (i + j)) →
      waitLoop poll₁ maxWaitTime i fuel = waitLoop poll₂ maxWaitTime i fuel := by
  intro fuel
  induction fuel with
  | zero => intro i _; rfl
  | succ f ih =>
    intro i h
    have h0 := h 0 (Nat.succ_pos f)
    rw [Nat.add_zero] at h0
    rw [waitLoop, waitLoop, h0]
    have hrest : waitLoop poll₁ maxWaitTime (i + 1) f =
        waitLoop poll₂ maxWaitTime (i + 1) f := by
      apply ih
      intro j hj
      have h2 : i + 1 + j = i + (j + 1) := by omega
      rw [h2]
      exact h (j + 1) (by omega)
    rw [hrest]

lemma waitForQueryCompletion_eq_waitLoop (poll : ℕ → PollResponse) :
    waitForQueryCompletion poll 60000 = waitLoop poll 60000 0 60 := by
  rw [waitForQueryCompletion, pollIntervalMs]

lemma message_ne_aux (s : QueryExecutionState) (r : String) (t : ℕ) :
    errorMessage (.queryTerminated s r) ≠ errorMessage (.queryTimedOut t) := by
  intro h
  rw [errorMessage, errorMessage] at h
  have hd := congrArg String.data h
  simp only [String.data_append] at hd
  rw [← List.take_append_drop 7 (("Query ".data ++ (stateName s).data) ++ ": ".data),
    ← List.take_append_drop 7
      (['Q', 'u', 'e', 'r', 'y', ' ', 'e', 'x', 'e', 'c', 'u', 't', 'i', 'o',
        'n', ' ', 't', 'i', 'm', 'e', 'd', ' ', 'o', 'u', 't', ' ', 'a', 'f',
        't', 'e', 'r', ' '] : List Char)] at hd
  simp only [List.append_assoc] at hd
  have hpre := List.append_inj_left hd (by cases s <;> decide)
  cases s <;> revert hpre <;> decide

/-- Claim C7: if all 60 polls inside the 60-second budget (one per second)
report a non-terminal state, the executor raises the timeout error, a
distinct error kind — as a constructor and as a message string — from the
error raised when the service reports FAILED or CANCELLED; the
FAILED/CANCELLED error carries the upstream-provided reason string verbatim;
and the result is fully determined by the polls within the budget, so a
timed-out execution is never retried. -/
theorem asyncQueryExecutor_errors :
    (∀ poll : ℕ → PollResponse,
      (∀ i, i < 60 → (poll i).state ≠ .SUCCEEDED ∧ (poll i).state ≠ .FAILED ∧
        (poll i).state ≠ .CANCELLED) →
      waitForQueryCompletion poll 60000 = .error (.queryTimedOut 60000)) ∧
    (∀ (poll : ℕ → PollResponse) (r : String),
      ((poll 0).state = .FAILED ∨ (poll 0).state = .CANCELLED) →
      (poll 0).stateChangeReason = some r → r ≠ "" →
      waitForQueryCompletion poll 60000 =
        .error (.queryTerminated ((poll 0).state) r)) ∧
    (∀ (s : QueryExecutionState) (r : String) (t : ℕ),
      AthenaError.queryTerminated s r ≠ AthenaError.queryTimedOut t) ∧
    (∀ (s : QueryExecutionState) (r : String) (t : ℕ),
      errorMessage (.queryTerminated s r) ≠ errorMessage (.queryTimedOut t)) ∧
    (∀ poll₁ poll₂ : ℕ → PollResponse, (∀ i, i < 60 → poll₁ i = poll₂ i) →
      waitForQueryCompletion poll₁ 60000 = waitForQueryCompletion poll₂ 60000) := by
  refine ⟨?_, ?_, ?_, message_ne_aux, ?_⟩
  · intro poll h
    rw [waitForQueryCompletion_eq_waitLoop]
    apply waitLoop_timeout
    intro j hj
    rw [Nat.zero_add]
    exact h j hj
  · intro poll r hterm hr hne
    rw [waitForQueryCompletion_eq_waitLoop]
    have : (60 : ℕ) = 59 + 1 := rfl
    rw [this, waitLoop_terminated poll 60000 0 59 hterm, hr, jsOrUnknown]
    have : (r == "") = false := by
      rcases hbe : r == "" with _ | _
      · rfl
      · exact absurd (by simpa using hbe) hne
    rw [this]
    simp
  · intro s r t h
    exact AthenaError.noConfusion h
  · intro poll₁ poll₂ h
    rw [waitForQueryCompletion_eq_waitLoop, waitForQueryCompletion_eq_waitLoop]
    apply waitLoop_congr
    intro j hj
    rw [Nat.zero_add]
    exact h j hj

/-- A query that stays RUNNING at every poll. -/
def pollAlwaysRunning : ℕ → PollResponse := fun _ => ⟨.RUNNING, none⟩

/-- A query that reports FAILED with a reason at the first poll. -/
def pollImmediateFailure : ℕ → PollResponse := fun _ => ⟨.FAILED, some "boom"⟩

/-- Witness for C7 at concrete poll traces. -/
theorem asyncQueryExecutor_errors_witness :
    waitForQueryCompletion pollAlwaysRunning 60000 =
      .error (.queryTimedOut 60000) ∧
    waitForQueryCompletion pollImmediateFailure 60000 =
      .error (.queryTerminated ((pollImmediateFailure 0).state) "boom") :=
  ⟨asyncQueryExecutor_errors.1 pollAlwaysRunning
      (fun _ _ => ⟨nofun, nofun, nofun⟩),
    asyncQueryExecutor_errors.2.1 pollImmediateFailure "boom" (Or.inl rfl) rfl
      (by decide)⟩

/-! ### The client-side range cache (dashboard component, handleDateRangeChange)

One normalized metric row, per the HealthMetricRow interface of the metrics
route. The source field named with a leading underscore (raw metadata) is
called metadataRaw here. -/

structure HealthMetricRow where
  metric_date : String
  hrv : Option ℚ
  resting_hr : Option ℚ
  sleep_score : Option ℚ
  steps : Option ℚ
  recovery_index : Option ℚ
  movement_index : Option ℚ
  hrv_baseline : Option ℚ
  rhr_baseline : Option ℚ
  recovery_baseline : Option ℚ
  movement_baseline : Option ℚ
  steps_baseline : Option ℚ
  low_hrv_flag : Bool
  high_rhr_flag : Bool
  low_sleep_flag : Bool
  low_recovery_flag : Bool
  low_movement_flag : Bool
  low_steps_flag : Bool
  is_anomalous : Bool
  anomaly_severity : ℚ
  readiness_score : Option ℤ
  metadataRaw : String
  processed_at : String
  rn : Option ℚ
deriving DecidableEq, Repr, Inhabited

/-- A row with the given date, steps and readiness score and every other
field defaulted; used for concrete examples. -/
def mkRow (d : String) (steps : Option ℚ) (score : Option ℤ) : HealthMetricRow :=
  ⟨d, none, none, none, steps, none, none, none, none, none, none, none,
    false, false, false, false, false, false, false, 0, score, "", "", none⟩

/-- One step of the deduplicating reduce: push the current row only when no
row with its date was already accumulated. -/
def dedupStep (acc : List HealthMetricRow) (curr : HealthMetricRow) :
    List HealthMetricRow :=
  if acc.any (fun m => m.metric_date == curr.metric_date) then acc
  else acc ++ [curr]

/-- The reduce of the merge: deduplicate by metric_date, keeping the first
occurrence in traversal order. -/
def dedupByDate (combined : List HealthMetricRow) : List HealthMetricRow :=
  combined.foldl dedupStep []

/-- The sort comparator of the merge: ascending by metric_date
(a.metric_date.localeCompare(b.metric_date), modelled as the lexicographic
string order). -/
def byDateLE (a b : HealthMetricRow) : Bool :=
  decide (a.metric_date ≤ b.metric_date)

/-- The merge of handleDateRangeChange: concatenate the previous cache with
the newly fetched rows, deduplicate by date keeping first occurrences, then
sort ascending by date (JS sort is stable; List.mergeSort is stable). -/
def mergeMetrics (prev newMetrics : List HealthMetricRow) :
    List HealthMetricRow :=
  (dedupByDate (prev ++ newMetrics)).mergeSort byDateLE

/-- A rephrasing of first-occurrence deduplication following the spec's
words: keep each row and delete every later row with the same date. -/
def keepFirstByDate : List HealthMetricRow → List HealthMetricRow
  | [] => []
  | r :: rest =>
    r :: keepFirstByDate (rest.filter (fun m => m.metric_date != r.metric_date))
termination_by l => l.length
decreasing_by
  simp only [List.length_cons]
  exact Nat.lt_succ_of_le (List.length_filter_le _ _)

lemma foldl_dedupStep : ∀ (l acc : List HealthMetricRow),
    l.foldl dedupStep acc =
      acc ++ keepFirstByDate (l.filter
        (fun r => !acc.any (fun m => m.metric_date == r.metric_date)))
  | [], acc => by simp [keepFirstByDate]
  | r :: rest, acc => by
    rw [List.foldl_cons]
    rcases hany : acc.any (fun m => m.metric_date == r.metric_date) with _ | _
    · have hstep : dedupStep acc r = acc ++ [r] := by
        rw [dedupStep, if_neg]
        rw [hany]
        exact Bool.false_ne_true
      rw [hstep, foldl_dedupStep rest (acc ++ [r])]
      have hfilter : rest.filter
          (fun x => !(acc ++ [r]).any (fun m => m.metric_date == x.metric_date)) =
          (rest.filter (fun x => !acc.any (fun m => m.metric_date == x.metric_date))).filter
            (fun m => m.metric_date != r.metric_date) := by
        rw [List.filter_filter]
        apply List.filter_congr
        intro x _
        simp only [List.any_append, List.any_cons, List.any_nil, Bool.or_false,
          Bool.not_or, bne]
        rcases heq : x.metric_date == r.metric_date with _ | _
        · have : (r.metric_date == x.metric_date) = false := by
            rcases h2 : r.metric_date == x.metric_date with _ | _
            · rfl
            · rw [beq_iff_eq] at h2
              rw [h2] at heq
              simp at heq
          rw [this]
          simp
        · have : (r.metric_date == x.metric_date) = true := by
            rw [beq_iff_eq] at heq ⊢
            rw [heq]
          rw [this]
          simp
      rw [hfilter]
      have hcons : (r :: rest).filter
          (fun x => !acc.any (fun m => m.metric_date == x.metric_date)) =
          r :: rest.filter
            (fun x => !acc.any (fun m => m.metric_date == x.metric_date)) := by
        apply List.filter_cons_of_pos
        rw [hany]
        simp
      rw [hcons, keepFirstByDate]
      simp
    · have hstep : dedupStep acc r = acc := by
        rw [dedupStep, if_pos hany]
      rw [hstep, foldl_dedupStep rest acc]
      have hcons : (r :: rest).filter
          (fun x => !acc.any (fun m => m.metric_date == x.metric_date)) =
          rest.filter
            (fun x => !acc.any (fun m => m.metric_date == x.metric_date)) := by
        apply List.filter_cons_of_neg
        rw [hany]
        simp
      rw [hcons]

lemma dedupByDate_eq_keepFirstByDate (l : List HealthMetricRow) :
    dedupByDate l = keepFirstByDate l := by
  rw [dedupByDate, foldl_dedupStep]
  simp

lemma keepFirstByDate_sublist : ∀ l : List HealthMetricRow,
    List.Sublist (keepFirstByDate l) l
  | [] => by rw [keepFirstByDate]
  | r :: rest => by
    rw [keepFirstByDate]
    exact ((keepFirstByDate_sublist _).trans (List.filter_sublist rest)).cons₂ r
termination_by l => l.length
decreasing_by
  simp only [List.length_cons]
  exact Nat.lt_succ_of_le (List.length_filter_le _ _)

lemma keepFirstByDate_pairwise : ∀ l : List HealthMetricRow,
    (keepFirstByDate l).Pairwise (fun a b => a.metric_date ≠ b.metric_date)
  | [] => by rw [keepFirstByDate]; exact List.Pairwise.nil
  | r :: rest => by
    rw [keepFirstByDate]
    refine List.Pairwise.cons ?_ (keepFirstByDate_pairwise _)
    intro x hx
    have hxf : x ∈ rest.filter (fun m => m.metric_date != r.metric_date) :=
      (keepFirstByDate_sublist _).mem hx
    have := List.of_mem_filter hxf
    simp only [bne_iff_ne, ne_eq] at this
    exact fun hc => this hc.symm
termination_by l => l.length
decreasing_by
  simp only [List.length_cons]
  exact Nat.lt_succ_of_le (List.length_filter_le _ _)

lemma keepFirstByDate_of_pairwise : ∀ l : List HealthMetricRow,
    l.Pairwise (fun a b => a.metric_date ≠ b.metric_date) →
    keepFirstByDate l = l
  | [], _ => by rw [keepFirstByDate]
  | r :: rest, h => by
    rw [keepFirstByDate]
    have hfilter : rest.filter (fun m => m.metric_date != r.metric_date) = rest := by
      apply List.filter_eq_self.mpr
      intro x hx
      simp only [bne_iff_ne, ne_eq]
      exact fun hc => (List.rel_of_pairwise_cons h hx) hc.symm
    rw [hfilter, keepFirstByDate_of_pairwise rest (List.Pairwise.of_cons h)]
termination_by l => l.length
decreasing_by
  simp only [List.length_cons]
  omega

lemma keepFirstByDate_covers : ∀ (l : List HealthMetricRow),
    ∀ x ∈ l, ∃ y ∈ keepFirstByDate l, y.metric_date = x.metric_date
  | [], x, hx => absurd hx (List.not_mem_nil x)
  | r :: rest, x, hx => by
    rw [keepFirstByDate]
    rcases List.mem_cons.mp hx with heq | hxr
    · exact ⟨r, List.mem_cons_self _ _, by rw [heq]⟩
    · by_cases hdate : x.metric_date = r.metric_date
      · exact ⟨r, List.mem_cons_self _ _, hdate.symm⟩
      · have hxf : x ∈ rest.filter (fun m => m.metric_date != r.metric_date) := by
          apply List.mem_filter.mpr
          exact ⟨hxr, by simpa [bne_iff_ne] using hdate⟩
        obtain ⟨y, hy, hyd⟩ := keepFirstByDate_covers _ x hxf
        exact ⟨y, List.mem_cons_of_mem _ hy, hyd⟩
termination_by l => l.length
decreasing_by
  simp only [List.length_cons]
  exact Nat.lt_succ_of_le (List.length_filter_le _ _)

lemma byDateLE_trans (a b c : HealthMetricRow) :
    byDateLE a b → byDateLE b c → byDateLE a c := by
  simp only [byDateLE, decide_eq_true_eq]
  exact le_trans

lemma byDateLE_total (a b : HealthMetricRow) : byDateLE a b || byDateLE b a := by
  simp only [byDateLE, Bool.or_eq_true, decide_eq_true_eq]
  exact le_total _ _

lemma mergeMetrics_pairwise_ne (prev newMetrics : List HealthMetricRow) :
    (mergeMetrics prev newMetrics).Pairwise
      (fun a b => a.metric_date ≠ b.metric_date) := by
  rw [mergeMetrics, dedupByDate_eq_keepFirstByDate]
  have hperm := List.mergeSort_perm (keepFirstByDate (prev ++ newMetrics)) byDateLE
  have hsym : Symmetric (fun a b : HealthMetricRow =>
      a.metric_date ≠ b.metric_date) := fun _ _ h => h.symm
  exact ((List.Perm.pairwise_iff (fun {_ _} h => hsym h)) hperm).mpr
    (keepFirstByDate_pairwise _)

lemma mergeMetrics_pairwise_le (prev newMetrics : List HealthMetricRow) :
    (mergeMetrics prev newMetrics).Pairwise
      (fun a b => a.metric_date ≤ b.metric_date) := by
  rw [mergeMetrics]
  have := List.sorted_mergeSort byDateLE_trans byDateLE_total
    (dedupByDate (prev ++ newMetrics))
  exact this.imp (fun h => by simpa [byDateLE] using h)

/-- The pre-existing cached row of the spec's merge example. -/
def cachedRow999 : HealthMetricRow := mkRow "2024-01-02" (some 999) none

/-- The freshly fetched row of the spec's merge example, same date. -/
def fetchedRow100 : HealthMetricRow := mkRow "2024-01-02" (some 100) none

/-- Claim C3: the cache merge concatenates the existing rows with the newly
fetched rows, deduplicates by date keeping the first occurrence in
concatenation order (so a pre-existing cached row wins over a freshly
fetched row with the same date), then sorts ascending by date; merging
a steps-100 row for 2024-01-02 into a cache holding a steps-999 row for
that date retains the steps-999 row. -/
theorem mergeMetrics_algorithm :
    (∀ prev newRows : List HealthMetricRow,
      mergeMetrics prev newRows =
        (keepFirstByDate (prev ++ newRows)).mergeSort byDateLE) ∧
    mergeMetrics [cachedRow999] [fetchedRow100] = [cachedRow999] ∧
    cachedRow999.steps = some 999 ∧ fetchedRow100.steps = some 100 := by
  refine ⟨?_, ?_, rfl, rfl⟩
  · intro prev newRows
    rw [mergeMetrics, dedupByDate_eq_keepFirstByDate]
  · have hdedup : dedupByDate [cachedRow999, fetchedRow100] = [cachedRow999] := by
      rw [dedupByDate]
      simp only [List.foldl_cons, List.foldl_nil]
      have h1 : dedupStep [] cachedRow999 = [cachedRow999] := by
        rw [dedupStep, if_neg]
        all_goals simp
      rw [h1, dedupStep, if_pos]
      simp [cachedRow999, fetchedRow100, mkRow]
    rw [mergeMetrics]
    simp only [List.cons_append, List.nil_append]
    rw [hdedup, List.mergeSort_singleton]

/-- A sequence of merges: fold the merge over a list of fetched batches. -/
def mergeAll (init : List HealthMetricRow)
    (batches : List (List HealthMetricRow)) : List HealthMetricRow :=
  batches.foldl mergeMetrics init

lemma mergeAll_pairwise (init : List HealthMetricRow)
    (batches : List (List HealthMetricRow)) (h : batches ≠ []) :
    ((mergeAll init batches).Pairwise
      fun a b => a.metric_date ≠ b.metric_date) ∧
    ((mergeAll init batches).Pairwise
      fun a b => a.metric_date ≤ b.metric_date) := by
  induction batches generalizing init with
  | nil => exact absurd rfl h
  | cons b bs ih =>
    rw [mergeAll, List.foldl_cons]
    rcases hbs : bs with _ | ⟨b2, rest⟩
    · rw [List.foldl_nil]
      exact ⟨mergeMetrics_pairwise_ne init b, mergeMetrics_pairwise_le init b⟩
    · rw [← hbs]
      exact ih (mergeMetrics init b) (by rw [hbs]; exact List.cons_ne_nil _ _)

/-- Claim C4: after any nonempty sequence of merges, from any starting cache
state, the cache contains no two rows with equal date and its row sequence
is sorted ascending by date. -/
theorem cache_unique_sorted (init : List HealthMetricRow)
    (batches : List (List HealthMetricRow)) (h : batches ≠ []) :
    ((mergeAll init batches).Pairwise
      fun a b => a.metric_date ≠ b.metric_date) ∧
    ((mergeAll init batches).Pairwise
      fun a b => a.metric_date ≤ b.metric_date) :=
  mergeAll_pairwise init batches h

/-- Witness for C4 at a concrete cache and batch sequence. -/
theorem cache_unique_sorted_witness :
    ([[fetchedRow100]] : List (List HealthMetricRow)) ≠ [] ∧
    (((mergeAll [cachedRow999] [[fetchedRow100]]).Pairwise
      fun a b => a.metric_date ≠ b.metric_date) ∧
    ((mergeAll [cachedRow999] [[fetchedRow100]]).Pairwise
      fun a b => a.metric_date ≤ b.metric_date)) :=
  ⟨List.cons_ne_nil _ _,
    cache_unique_sorted [cachedRow999] [[fetchedRow100]] (List.cons_ne_nil _ _)⟩

lemma mergeMetrics_pairwise_byDateLE (prev newMetrics : List HealthMetricRow) :
    (mergeMetrics prev newMetrics).Pairwise (fun a b => byDateLE a b = true) :=
  (mergeMetrics_pairwise_le prev newMetrics).imp
    (fun h => by simpa [byDateLE] using h)

lemma dedupByDate_of_pairwise (l : List HealthMetricRow)
    (h : l.Pairwise fun a b => a.metric_date ≠ b.metric_date) :
    dedupByDate l = l := by
  rw [dedupByDate_eq_keepFirstByDate]
  exact keepFirstByDate_of_pairwise l h

lemma mergeMetrics_covers (prev newMetrics : List HealthMetricRow) :
    ∀ x ∈ prev ++ newMetrics,
      ∃ y ∈ mergeMetrics prev newMetrics, y.metric_date = x.metric_date := by
  intro x hx
  obtain ⟨y, hy, hyd⟩ := keepFirstByDate_covers (prev ++ newMetrics) x hx
  refine ⟨y, ?_, hyd⟩
  rw [mergeMetrics, dedupByDate_eq_keepFirstByDate]
  exact List.mem_mergeSort.mpr hy

/-- Claim C5: the cache merge is idempotent — merging the same row set a
second time leaves the cache exactly as it was after the first merge, for
every cache state and every row set. -/
theorem mergeMetrics_idempotent (cache rows : List HealthMetricRow) :
    mergeMetrics (mergeMetrics cache rows) rows = mergeMetrics cache rows := by
  have hne := mergeMetrics_pairwise_ne cache rows
  have hsorted := mergeMetrics_pairwise_byDateLE cache rows
  have hM : dedupByDate (mergeMetrics cache rows ++ rows) =
      mergeMetrics cache rows := by
    rw [dedupByDate, List.foldl_append]
    have hMself : (mergeMetrics cache rows).foldl dedupStep [] =
        mergeMetrics cache rows := by
      have := dedupByDate_of_pairwise (mergeMetrics cache rows) hne
      rwa [dedupByDate] at this
    rw [hMself, foldl_dedupStep]
    have hfe : rows.filter (fun r =>
        !(mergeMetrics cache rows).any
          (fun m => m.metric_date == r.metric_date)) = [] := by
      rw [List.filter_eq_nil_iff]
      intro r hr
      obtain ⟨y, hy, hyd⟩ := mergeMetrics_covers cache rows r
        (List.mem_append_right cache hr)
      have hany : ((mergeMetrics cache rows).any
          fun m => m.metric_date == r.metric_date) = true := by
        rw [List.any_eq_true]
        exact ⟨y, hy, by rw [beq_iff_eq]; exact hyd⟩
      simp [hany]
    rw [hfe, keepFirstByDate]
    simp
  rw [mergeMetrics, hM]
  exact List.mergeSort_of_sorted hsorted

/-! ### The range-request decision policy (handleDateRangeChange) -/

/-- isDateRangeInLoadedData: the requested range is inside the loaded window
when the cache is nonempty and startDate is at or after the first cached date
and endDate is at or before the last cached date. -/
def isDateRangeInLoadedData (allMetrics : List HealthMetricRow)
    (startDate endDate : String) : Bool :=
  match allMetrics with
  | [] => false
  | first :: rest =>
    decide (startDate ≥ first.metric_date) &&
      decide (endDate ≤
        ((first :: rest).getLast (List.cons_ne_nil first rest)).metric_date)

/-- filterMetrics: the client-side filter for a contained custom range
(inclusive bounds on metric_date). -/
def filterMetrics (allMetrics : List HealthMetricRow)
    (startDate endDate : String) : List HealthMetricRow :=
  allMetrics.filter (fun m =>
    decide (m.metric_date ≥ startDate) && decide (m.metric_date ≤ endDate))

/-- The dashboard state handleDateRangeChange reads: the displayed rows and
the full loaded cache. -/
structure DashboardState where
  metrics : List HealthMetricRow
  allMetrics : List HealthMetricRow
deriving DecidableEq, Repr

/-- The observable outcome of one handleDateRangeChange call: the rows now
displayed, the cache afterwards, and how many remote fetches were made. -/
structure HandleResult where
  metrics : List HealthMetricRow
  allMetrics : List HealthMetricRow
  fetchCount : ℕ
deriving DecidableEq, Repr

/-- The custom-range tail of handleDateRangeChange: filter client-side when
the range is inside the loaded data, otherwise fetch remotely and merge;
fetched stands for the rows the remote call would return. -/
def handleCustomRange (state : DashboardState) (startDate endDate : String)
    (fetched : List HealthMetricRow) : HandleResult :=
  if isDateRangeInLoadedData state.allMetrics startDate endDate then
    ⟨filterMetrics state.allMetrics startDate endDate, state.allMetrics, 0⟩
  else
    ⟨fetched, mergeMetrics state.allMetrics fetched, 1⟩

/-- handleDateRangeChange: no-op without both dates; for preset day counts
(days truthy and at most 30) with a nonempty cache, display the last days
rows of the cache with no remote call; otherwise fall through to the
custom-range logic. -/
def handleDateRangeChange (state : DashboardState)
    (startDate endDate : Option String) (days : Option ℕ)
    (fetched : List HealthMetricRow) : HandleResult :=
  match startDate, endDate with
  | some s, some e =>
    match days with
    | some d =>
      if d ≠ 0 ∧ d ≤ 30 ∧ state.allMetrics ≠ [] then
        ⟨state.allMetrics.drop (state.allMetrics.length - d),
          state.allMetrics, 0⟩
      else handleCustomRange state s e fetched
    | none => handleCustomRange state s e fetched
  | _, _ => ⟨state.metrics, state.allMetrics, 0⟩

/-- Claim C6: a request with one of the preset day counts (7, 14 or 30),
when the cache already holds at least that many days, is served as exactly
the most-recent presetDayCount rows of the cache (a suffix of the cache),
with zero remote query invocations and the cache left unchanged. -/
theorem preset_served_from_cache (state : DashboardState) (s e : String)
    (d : ℕ) (fetched : List HealthMetricRow)
    (hpreset : d = 7 ∨ d = 14 ∨ d = 30)
    (hcache : d ≤ state.allMetrics.length) :
    handleDateRangeChange state (some s) (some e) (some d) fetched =
      ⟨state.allMetrics.drop (state.allMetrics.length - d),
        state.allMetrics, 0⟩ ∧
    (state.allMetrics.drop (state.allMetrics.length - d)).length = d ∧
    List.IsSuffix (state.allMetrics.drop (state.allMetrics.length - d))
      state.allMetrics := by
  have hd0 : d ≠ 0 := by rcases hpreset with rfl | rfl | rfl <;> omega
  have hd30 : d ≤ 30 := by rcases hpreset with rfl | rfl | rfl <;> omega
  have hne : state.allMetrics ≠ [] := by
    intro hnil
    rw [hnil] at hcache
    simp only [List.length_nil, Nat.le_zero] at hcache
    exact hd0 hcache
  refine ⟨?_, ?_, List.drop_suffix _ _⟩
  · rw [handleDateRangeChange, if_pos ⟨hd0, hd30, hne⟩]
  · rw [List.length_drop]
    omega

/-- A concrete cache of 8 consecutive days. -/
def presetCache : List HealthMetricRow :=
  [mkRow "2024-01-01" none none, mkRow "2024-01-02" none none,
   mkRow "2024-01-03" none none, mkRow "2024-01-04" none none,
   mkRow "2024-01-05" none none, mkRow "2024-01-06" none none,
   mkRow "2024-01-07" none none, mkRow "2024-01-08" none none]

/-- Witness for C6: a 7-day preset against the 8-day cache. -/
theorem preset_served_from_cache_witness :
    ((7:ℕ) = 7 ∨ (7:ℕ) = 14 ∨ (7:ℕ) = 30) ∧ 7 ≤ presetCache.length ∧
    (handleDateRangeChange ⟨[], presetCache⟩ (some "2024-01-02")
        (some "2024-01-08") (some 7) [] =
      ⟨presetCache.drop (presetCache.length - 7), presetCache, 0⟩ ∧
    (presetCache.drop (presetCache.length - 7)).length = 7 ∧
    List.IsSuffix (presetCache.drop (presetCache.length - 7)) presetCache) :=
  ⟨Or.inl rfl, by norm_num [presetCache],
    preset_served_from_cache ⟨[], presetCache⟩ "2024-01-02" "2024-01-08" 7 []
      (Or.inl rfl) (by norm_num [presetCache])⟩

/-! ### Best/worst day selection (dashboard component, findBestWorstDays) -/

/-- The valid rows: those whose readiness_score is non-null. -/
def validRows (allMetrics : List HealthMetricRow) : List HealthMetricRow :=
  allMetrics.filter (fun m => !(m.readiness_score == none))

/-- The JS expression (m.readiness_score || 0): null becomes 0 (and 0 stays
0, so this is Option.getD). -/
def readinessOrZero (m : HealthMetricRow) : ℤ := m.readiness_score.getD 0

/-- The sort comparator (b.readiness_score || 0) - (a.readiness_score || 0):
descending by score; the JS sort is stable, as is List.mergeSort. -/
def scoreDescLE (a b : HealthMetricRow) : Bool :=
  decide (readinessOrZero b ≤ readinessOrZero a)

/-- findBestWorstDays: none on an empty cache or when no row has a score;
otherwise sort the valid rows descending by score (stable) and return the
first element as best and the last as worst. -/
def findBestWorstDays (allMetrics : List HealthMetricRow) :
    Option (HealthMetricRow × HealthMetricRow) :=
  if allMetrics.isEmpty then none
  else
    let validMetrics := validRows allMetrics
    if validMetrics.isEmpty then none
    else
      let sorted := validMetrics.mergeSort scoreDescLE
      some (sorted.headD default, sorted.getLastD default)

/-- Two rows on consecutive dates with the same readiness score. -/
def tiedRowA : HealthMetricRow := mkRow "2024-01-01" none (some 10)

/-- The later of the two tied rows. -/
def tiedRowB : HealthMetricRow := mkRow "2024-01-02" none (some 10)

lemma findBestWorstDays_tied_eval :
    findBestWorstDays [tiedRowA, tiedRowB] = some (tiedRowA, tiedRowB) := by
  have hle : scoreDescLE tiedRowA tiedRowB = true := by decide
  have hA : ((tiedRowA.readiness_score == none) : Bool) = false := by decide
  have hB : ((tiedRowB.readiness_score == none) : Bool) = false := by decide
  rw [findBestWorstDays]
  simp only [validRows, List.filter_cons, hA, hB, Bool.not_false, if_true,
    List.filter_nil, List.isEmpty_cons, if_false]
  simp [List.mergeSort, List.splitInTwo, List.splitAt, List.splitAt.go,
    List.merge, hle]

/-- Counterexample to claim C10: with two rows tied at the minimal score, in
ascending-date order, findBestWorstDays returns the second (later) row as
worst day — the last occurrence, not the first occurrence the claim states.
(Best is indeed the first occurrence.) -/
theorem bestWorst_counterexample :
    findBestWorstDays [tiedRowA, tiedRowB] = some (tiedRowA, tiedRowB) ∧
    tiedRowB ≠ tiedRowA ∧
    tiedRowA.metric_date ≤ tiedRowB.metric_date ∧
    readinessOrZero tiedRowA = readinessOrZero tiedRowB := by
  refine ⟨findBestWorstDays_tied_eval, by decide, ?_, by decide⟩
  show ("2024-01-01" : String) ≤ "2024-01-02"
  rw [String.le_iff_toList_le]
  decide

lemma scoreDescLE_trans (a b c : HealthMetricRow) :
    scoreDescLE a b → scoreDescLE b c → scoreDescLE a c := by
  simp only [scoreDescLE, decide_eq_true_eq]
  intro h1 h2
  exact le_trans h2 h1

lemma scoreDescLE_total (a b : HealthMetricRow) :
    scoreDescLE a b || scoreDescLE b a := by
  simp only [scoreDescLE, Bool.or_eq_true, decide_eq_true_eq]
  exact le_total _ _

lemma find?_decomp {α : Type} (p : α → Bool) :
    ∀ (l : List α) (a : α), a ∈ l → p a = true →
      ∃ y l₁ l₂, l = l₁ ++ y :: l₂ ∧ l.find? p = some y ∧ p y = true ∧
        ∀ x ∈ l₁, p x = false := by
  intro l
  induction l with
  | nil => intro a ha _; exact absurd ha (List.not_mem_nil a)
  | cons hd tl ih =>
    intro a ha hpa
    rcases hp : p hd with _ | _
    · have hat : a ∈ tl := by
        rcases List.mem_cons.mp ha with heq | hat
        · rw [heq] at hpa
          rw [hpa] at hp
          exact absurd hp (by simp)
        · exact hat
      obtain ⟨y, l₁, l₂, hsplit, hfind, hpy, hl₁⟩ := ih a hat hpa
      refine ⟨y, hd :: l₁, l₂, by rw [hsplit]; rfl, ?_, hpy, ?_⟩
      · rw [List.find?_cons_of_neg _ (by rw [hp]; exact Bool.false_ne_true), hfind]
      · intro x hx
        rcases List.mem_cons.mp hx with heq | hxl
        · rw [heq]; exact hp
        · exact hl₁ x hxl
    · exact ⟨hd, [], tl, rfl, List.find?_cons_of_pos tl hp, hp,
        fun x hx => absurd hx (List.not_mem_nil x)⟩

/-- Claim C10, amended: over a cache with unique dates (the invariant the
cache always satisfies), the best day is a row with maximal non-null
readiness score and the worst day one with minimal non-null score; when
several rows tie for the extreme, the best day is the FIRST occurrence in
ascending-date order, while the worst day is the LAST occurrence (the first
occurrence in the reversed sequence), not the first as claimed. -/
theorem findBestWorstDays_spec (allMetrics : List HealthMetricRow)
    (best worst : HealthMetricRow)
    (hnd : allMetrics.Pairwise fun a b => a.metric_date ≠ b.metric_date)
    (h : findBestWorstDays allMetrics = some (best, worst)) :
    best ∈ validRows allMetrics ∧ worst ∈ validRows allMetrics ∧
    (∀ r ∈ validRows allMetrics, readinessOrZero r ≤ readinessOrZero best) ∧
    (∀ r ∈ validRows allMetrics, readinessOrZero worst ≤ readinessOrZero r) ∧
    (validRows allMetrics).find?
      (fun r => decide (readinessOrZero best ≤ readinessOrZero r)) = some best ∧
    (validRows allMetrics).reverse.find?
      (fun r => decide (readinessOrZero r ≤ readinessOrZero worst)) = some worst := by
  simp only [findBestWorstDays] at h
  split_ifs at h with h1 h2
  case _ =>
    have hpair : (((validRows allMetrics).mergeSort scoreDescLE).headD default,
        ((validRows allMetrics).mergeSort scoreDescLE).getLastD default) =
        (best, worst) := Option.some.inj h
    have hbeq : ((validRows allMetrics).mergeSort scoreDescLE).headD default =
        best := congrArg Prod.fst hpair
    have hweq : ((validRows allMetrics).mergeSort scoreDescLE).getLastD default =
        worst := congrArg Prod.snd hpair
    have hvne : validRows allMetrics ≠ [] := by
      rw [List.isEmpty_iff] at h2
      exact h2
    have hperm := List.mergeSort_perm (validRows allMetrics) scoreDescLE
    have hsne : (validRows allMetrics).mergeSort scoreDescLE ≠ [] := by
      intro hnil
      apply hvne
      rw [← List.length_eq_zero, ← hperm.length_eq, hnil]
      rfl
    obtain ⟨b, t, hS⟩ := List.exists_cons_of_ne_nil hsne
    have hbb : best = b := by rw [← hbeq, hS, List.headD_cons]
    have hsrne : ((validRows allMetrics).mergeSort scoreDescLE).reverse ≠ [] := by
      simpa using hsne
    obtain ⟨w, tR, hSR⟩ := List.exists_cons_of_ne_nil hsrne
    have hww : worst = w := by
      rw [← hweq, List.getLastD_eq_getLast?, List.getLast?_eq_head?_reverse, hSR]
      rfl
    rw [hbb, hww]
    have hpw : ((validRows allMetrics).mergeSort scoreDescLE).Pairwise
        (fun a b => readinessOrZero b ≤ readinessOrZero a) :=
      (List.sorted_mergeSort scoreDescLE_trans scoreDescLE_total
        (validRows allMetrics)).imp (fun hab => by simpa [scoreDescLE] using hab)
    have hpwR : (((validRows allMetrics).mergeSort scoreDescLE).reverse).Pairwise
        (fun a b => readinessOrZero a ≤ readinessOrZero b) :=
      List.pairwise_reverse.mpr hpw
    have hbS : b ∈ (validRows allMetrics).mergeSort scoreDescLE := by
      rw [hS]
      exact List.mem_cons_self _ _
    have hbV : b ∈ validRows allMetrics := hperm.mem_iff.mp hbS
    have hwS : w ∈ (validRows allMetrics).mergeSort scoreDescLE := by
      rw [← List.mem_reverse, hSR]
      exact List.mem_cons_self _ _
    have hwV : w ∈ validRows allMetrics := hperm.mem_iff.mp hwS
    have hmax : ∀ r ∈ validRows allMetrics,
        readinessOrZero r ≤ readinessOrZero b := by
      intro r hr
      have hrS : r ∈ (validRows allMetrics).mergeSort scoreDescLE :=
        hperm.mem_iff.mpr hr
      rw [hS] at hrS
      rcases List.mem_cons.mp hrS with heq | hrt
      · rw [heq]
      · have hbr := List.rel_of_pairwise_cons (hS ▸ hpw) hrt
        exact hbr
    have hmin : ∀ r ∈ validRows allMetrics,
        readinessOrZero w ≤ readinessOrZero r := by
      intro r hr
      have hrS : r ∈ ((validRows allMetrics).mergeSort scoreDescLE).reverse :=
        List.mem_reverse.mpr (hperm.mem_iff.mpr hr)
      rw [hSR] at hrS
      rcases List.mem_cons.mp hrS with heq | hrt
      · rw [heq]
      · have hwr := List.rel_of_pairwise_cons (hSR ▸ hpwR) hrt
        exact hwr
    have hndV : (validRows allMetrics).Nodup := by
      have hfp := hnd.filter (fun m => !(m.readiness_score == none))
      exact hfp.imp (fun hdate heq => hdate (by rw [heq]))
    have hndS : ((validRows allMetrics).mergeSort scoreDescLE).Nodup :=
      hperm.nodup_iff.mpr hndV
    have hndSR : (((validRows allMetrics).mergeSort scoreDescLE).reverse).Nodup :=
      List.nodup_reverse.mpr hndS
    have hfb : (validRows allMetrics).find?
        (fun r => decide (readinessOrZero b ≤ readinessOrZero r)) = some b := by
      obtain ⟨y, l₁, l₂, hsplit, hfind, hpy, hl₁⟩ :=
        find?_decomp (fun r => decide (readinessOrZero b ≤ readinessOrZero r))
          (validRows allMetrics) b hbV (by simp)
      have hyb : y = b := by
        by_contra hne'
        have hbmem : b ∈ y :: l₂ := by
          have hb2 : b ∈ validRows allMetrics := hbV
          rw [hsplit] at hb2
          rcases List.mem_append.mp hb2 with hbl₁ | hby
          · have hfalse := hl₁ b hbl₁
            simp at hfalse
          · exact hby
        have hbl₂ : b ∈ l₂ := by
          rcases List.mem_cons.mp hbmem with heq2 | hb3
          · exact absurd heq2.symm hne'
          · exact hb3
        have hsub : List.Sublist [y, b] (validRows allMetrics) := by
          rw [hsplit]
          exact ((List.singleton_sublist.mpr hbl₂).cons₂ y).trans
            (List.sublist_append_right l₁ (y :: l₂))
        have hleyb : scoreDescLE y b = true := by
          rw [scoreDescLE]
          simpa using hpy
        have hsubS := List.pair_sublist_mergeSort scoreDescLE_trans
          scoreDescLE_total hleyb hsub
        rw [hS] at hsubS
        rcases List.sublist_cons_iff.mp hsubS with h' | ⟨r2, hr2, h'⟩
        · have hbt : b ∈ t := h'.subset (by simp)
          rw [hS] at hndS
          exact (List.nodup_cons.mp hndS).1 hbt
        · injection hr2 with hy2 hrest2
          exact hne' hy2
      rw [hyb] at hfind
      exact hfind
    have hfw : (validRows allMetrics).reverse.find?
        (fun r => decide (readinessOrZero r ≤ readinessOrZero w)) = some w := by
      obtain ⟨y, l₁, l₂, hsplit, hfind, hpy, hl₁⟩ :=
        find?_decomp (fun r => decide (readinessOrZero r ≤ readinessOrZero w))
          (validRows allMetrics).reverse w (List.mem_reverse.mpr hwV) (by simp)
      have hyw : y = w := by
        by_contra hne'
        have hwmem : w ∈ y :: l₂ := by
          have hw2 : w ∈ (validRows allMetrics).reverse :=
            List.mem_reverse.mpr hwV
          rw [hsplit] at hw2
          rcases List.mem_append.mp hw2 with hwl₁ | hwy
          · have hfalse := hl₁ w hwl₁
            simp at hfalse
          · exact hwy
        have hwl₂ : w ∈ l₂ := by
          rcases List.mem_cons.mp hwmem with heq2 | hw3
          · exact absurd heq2.symm hne'
          · exact hw3
        have hsubR : List.Sublist [y, w] (validRows allMetrics).reverse := by
          rw [hsplit]
          exact ((List.singleton_sublist.mpr hwl₂).cons₂ y).trans
            (List.sublist_append_right l₁ (y :: l₂))
        have hsub : List.Sublist [w, y] (validRows allMetrics) := by
          have hrev := hsubR.reverse
          rw [List.reverse_reverse] at hrev
          simpa using hrev
        have hlewy : scoreDescLE w y = true := by
          rw [scoreDescLE]
          simpa using hpy
        have hsubS := List.pair_sublist_mergeSort scoreDescLE_trans
          scoreDescLE_total hlewy hsub
        have hsubSR : List.Sublist [y, w]
            (((validRows allMetrics).mergeSort scoreDescLE).reverse) := by
          have hrev := hsubS.reverse
          simpa using hrev
        rw [hSR] at hsubSR
        rcases List.sublist_cons_iff.mp hsubSR with h' | ⟨r2, hr2, h'⟩
        · have hwt : w ∈ tR := h'.subset (by simp)
          rw [hSR] at hndSR
          exact (List.nodup_cons.mp hndSR).1 hwt
        · injection hr2 with hy2 hrest2
          exact hne' hy2
      rw [hyw] at hfind
      exact hfind
    exact ⟨hbV, hwV, hmax, hmin, hfb, hfw⟩

/-- Witness for C10 (amended) at the concrete tied cache. -/
theorem findBestWorstDays_spec_witness :
    ([tiedRowA, tiedRowB].Pairwise fun a b => a.metric_date ≠ b.metric_date) ∧
    (tiedRowA ∈ validRows [tiedRowA, tiedRowB] ∧
     tiedRowB ∈ validRows [tiedRowA, tiedRowB] ∧
     (∀ r ∈ validRows [tiedRowA, tiedRowB],
       readinessOrZero r ≤ readinessOrZero tiedRowA) ∧
     (∀ r ∈ validRows [tiedRowA, tiedRowB],
       readinessOrZero tiedRowB ≤ readinessOrZero r) ∧
     (validRows [tiedRowA, tiedRowB]).find?
       (fun r => decide (readinessOrZero tiedRowA ≤ readinessOrZero r)) =
         some tiedRowA ∧
     (validRows [tiedRowA, tiedRowB]).reverse.find?
       (fun r => decide (readinessOrZero r ≤ readinessOrZero tiedRowB)) =
         some tiedRowB) :=
  ⟨by decide,
    findBestWorstDays_spec [tiedRowA, tiedRowB] tiedRowA tiedRowB (by decide)
      findBestWorstDays_tied_eval⟩

end ChronicGPT
